import Mathlib

/-!
Verification development for the treehacks2026 search-and-rescue
orchestration system.  The repository's Python mission core
(`himpublic-py/src/himpublic/...`) is documented in
`himpublic-py/docs/PIPELINE.md` and `README.md`; the phase engine, reflex
controller, bearing estimator, ring buffer and policy executor are embedded
below.  The webapp API client (`webapp/src/api/client.ts`) is embedded from
its TypeScript source.  Machine reals (timestamps, confidences, distances)
are modelled as rationals.
-/

namespace SAR

/-! ## Phase pipeline engine (claims C1, C2)

Modelled from the spec: the engine source (`phases.py`, `PipelineRunner.run`
in `himpublic/pipeline`) is not in the source tree; only
`himpublic-py/docs/PIPELINE.md` documents it.  The definitions follow spec
section 4.1 and the PIPELINE.md retry table.  Cooldown sleeps and the
`--force_phase` debugging override are not modelled (no claim mentions
them); real time is not modelled, so `elapsed_s`/`timestamp` log fields are
omitted from log entries. -/

inductive PhaseStatus where
  | SUCCESS
  | RETRY
  | DEGRADED
  | ABORT
  | SKIPPED
deriving DecidableEq

structure LogEntry where
  phase_name : String
  attempt : Nat
  status : PhaseStatus
  reason : String
deriving DecidableEq

structure MissionContext where
  phase_log : List LogEntry
  fields : List (String × String)
deriving DecidableEq

structure PhaseResult where
  status : PhaseStatus
  outputs : List (String × String)
  reason : String

structure RetryPolicy where
  max_attempts : Nat
  cooldown_s : ℚ
  allow_degraded : Bool
  fallback_status : PhaseStatus

structure PhaseDefinition where
  name : String
  precond : MissionContext → Bool
  handler : MissionContext → PhaseResult
  policy : RetryPolicy

/-- Modelled from the spec: a required MissionContext field is "present and
non-empty". -/
def fieldNonEmpty (ctx : MissionContext) (k : String) : Bool :=
  match ctx.fields.lookup k with
  | some v => v != ""
  | none => false

def logAttempt (ctx : MissionContext) (name : String) (attempt : Nat)
    (status : PhaseStatus) (reason : String) : MissionContext :=
  { ctx with phase_log := ctx.phase_log ++ [⟨name, attempt, status, reason⟩] }

def mergeOutputs (ctx : MissionContext) (outs : List (String × String)) : MissionContext :=
  { ctx with fields := outs ++ ctx.fields }

/-- Modelled from the spec: the per-phase attempt loop.  Every attempt
(success or failure) is appended to `phase_log`; a precondition failure is
counted against the retry budget; a handler SUCCESS merges outputs and ends
the phase; a handler ABORT ends the phase immediately; any other handler
status is a retryable failure.  On exhausting the budget the outcome is
DEGRADED when `allow_degraded`, else the policy's `fallback_status`. -/
def runAttempts : PhaseDefinition → MissionContext → Nat → Nat → MissionContext × PhaseStatus
  | pd, ctx, _, 0 =>
    (ctx, if pd.policy.allow_degraded then PhaseStatus.DEGRADED else pd.policy.fallback_status)
  | pd, ctx, attempt, remaining + 1 =>
    if pd.precond ctx then
      match (pd.handler ctx).status with
      | PhaseStatus.SUCCESS =>
        (mergeOutputs
          (logAttempt ctx pd.name attempt PhaseStatus.SUCCESS (pd.handler ctx).reason)
          (pd.handler ctx).outputs,
         PhaseStatus.SUCCESS)
      | PhaseStatus.ABORT =>
        (logAttempt ctx pd.name attempt PhaseStatus.ABORT (pd.handler ctx).reason,
         PhaseStatus.ABORT)
      | st =>
        runAttempts pd (logAttempt ctx pd.name attempt st (pd.handler ctx).reason)
          (attempt + 1) remaining
    else
      runAttempts pd (logAttempt ctx pd.name attempt PhaseStatus.RETRY "precondition_failed")
        (attempt + 1) remaining

def resolvePhase (pd : PhaseDefinition) (ctx : MissionContext) : MissionContext × PhaseStatus :=
  runAttempts pd ctx 1 pd.policy.max_attempts

/-- Modelled from the spec: the sequential run loop.  Phases run in list
order; an ABORT outcome stops the loop entirely, anything else advances. -/
def runPhases : List PhaseDefinition → MissionContext → MissionContext × List PhaseStatus
  | [], ctx => (ctx, [])
  | pd :: rest, ctx =>
    if (resolvePhase pd ctx).2 = PhaseStatus.ABORT then
      ((resolvePhase pd ctx).1, [PhaseStatus.ABORT])
    else
      ((runPhases rest (resolvePhase pd ctx).1).1,
       (resolvePhase pd ctx).2 :: (runPhases rest (resolvePhase pd ctx).1).2)

/-- Modelled from the spec: the PIPELINE.md retry table.  Each concrete
phase either degrades on exhaustion or falls back to ABORT. -/
def policyDegradesOrAborts (p : RetryPolicy) : Prop :=
  p.allow_degraded = true ∨ p.fallback_status = PhaseStatus.ABORT

/-- Modelled from the spec: the seven-phase pipeline with the PIPELINE.md
preconditions and retry policies; handlers are parameters (their bodies are
out-of-scope collaborators). -/
def pipelinePhases (h1 h2 h3 h4 h5 h6 h7 : MissionContext → PhaseResult) : List PhaseDefinition :=
  [ { name := "DEPLOY", precond := fun _ => true, handler := h1,
      policy := { max_attempts := 2, cooldown_s := 1, allow_degraded := true,
                  fallback_status := PhaseStatus.DEGRADED } },
    { name := "SEARCH_HAIL", precond := fun ctx => fieldNonEmpty ctx "deploy_status",
      handler := h2,
      policy := { max_attempts := 5, cooldown_s := 2, allow_degraded := false,
                  fallback_status := PhaseStatus.ABORT } },
    { name := "APPROACH_CONFIRM", precond := fun ctx => fieldNonEmpty ctx "person_detected",
      handler := h3,
      policy := { max_attempts := 3, cooldown_s := 2, allow_degraded := false,
                  fallback_status := PhaseStatus.ABORT } },
    { name := "DEBRIS_CLEAR", precond := fun ctx => fieldNonEmpty ctx "approach_confirmed",
      handler := h4,
      policy := { max_attempts := 2, cooldown_s := 1, allow_degraded := true,
                  fallback_status := PhaseStatus.DEGRADED } },
    { name := "TRIAGE_DIALOG_SCAN", precond := fun ctx => fieldNonEmpty ctx "approach_confirmed",
      handler := h5,
      policy := { max_attempts := 2, cooldown_s := 2, allow_degraded := true,
                  fallback_status := PhaseStatus.DEGRADED } },
    { name := "REPORT_SEND",
      precond := fun ctx => fieldNonEmpty ctx "triage_answers" || fieldNonEmpty ctx "patient_state",
      handler := h6,
      policy := { max_attempts := 3, cooldown_s := 3, allow_degraded := true,
                  fallback_status := PhaseStatus.DEGRADED } },
    { name := "MONITOR_WAIT", precond := fun ctx => fieldNonEmpty ctx "report_path",
      handler := h7,
      policy := { max_attempts := 1, cooldown_s := 0, allow_degraded := true,
                  fallback_status := PhaseStatus.DEGRADED } } ]

/-- Always-retrying handler, used as a concrete witness collaborator. -/
def retryHandler : MissionContext → PhaseResult :=
  fun _ => { status := PhaseStatus.RETRY, outputs := [], reason := "fail" }

/-- Always-succeeding handler, used as a concrete witness collaborator. -/
def okHandler : MissionContext → PhaseResult :=
  fun _ => { status := PhaseStatus.SUCCESS, outputs := [], reason := "ok" }

/-- Always-aborting handler, used as a concrete witness collaborator. -/
def abortHandler : MissionContext → PhaseResult :=
  fun _ => { status := PhaseStatus.ABORT, outputs := [], reason := "fatal" }

/-- The SEARCH_HAIL phase definition with the witness retry handler. -/
def pdSearchW : PhaseDefinition :=
  { name := "SEARCH_HAIL", precond := fun ctx => fieldNonEmpty ctx "deploy_status",
    handler := retryHandler,
    policy := { max_attempts := 5, cooldown_s := 2, allow_degraded := false,
                fallback_status := PhaseStatus.ABORT } }

/-- Witness context whose deploy status is already set. -/
def ctxDeployReady : MissionContext := { phase_log := [], fields := [("deploy_status", "ready")] }

/-- Witness three-phase list whose middle phase always aborts. -/
def phasesAbortMid : List PhaseDefinition :=
  [ { name := "A", precond := fun _ => true, handler := okHandler,
      policy := { max_attempts := 2, cooldown_s := 0, allow_degraded := true,
                  fallback_status := PhaseStatus.DEGRADED } },
    { name := "B", precond := fun _ => true, handler := abortHandler,
      policy := { max_attempts := 3, cooldown_s := 0, allow_degraded := false,
                  fallback_status := PhaseStatus.ABORT } },
    { name := "C", precond := fun _ => true, handler := okHandler,
      policy := { max_attempts := 2, cooldown_s := 0, allow_degraded := true,
                  fallback_status := PhaseStatus.DEGRADED } } ]

/-- Empty mission context. -/
def ctxEmpty : MissionContext := { phase_log := [], fields := [] }

/-! ## Reflex controller and decision executor (claims C3, C8)

Modelled from the spec: `himpublic/orchestrator/policy.py` and the
actuation loop are not in the source tree; `README.md` ("Reflex Override",
"Reflex Controller") and spec sections 4.3, 4.4, 5 and 7 describe them. -/

inductive RobotAction where
  | STOP
  | ROTATE_LEFT
  | ROTATE_RIGHT
  | FORWARD_SLOW
  | BACK_UP
  | WAIT
  | ASK
  | SAY
deriving DecidableEq

inductive PolicyMode where
  | SEARCH
  | APPROACH
  | ASSESS
  | REPORT
deriving DecidableEq

structure Observation where
  timestamp : ℚ
  num_persons : Nat
  primary_person_center_offset : ℚ
  confidence : ℚ
  obstacle_distance_m : Option ℚ
deriving DecidableEq

structure Decision where
  action : RobotAction
  say : String
  wait_for_response_s : Option ℚ
  mode : PolicyMode
  confidence : ℚ
deriving DecidableEq

/-- Obstacle safety threshold, 0.5 m. -/
def obstacleThreshold : ℚ := 1 / 2

/-- Person recentring threshold on the centre offset, 0.3. -/
def recenterThreshold : ℚ := 3 / 10

/-- Modelled from the spec: recentring branch of the reflex controller;
the rotation sign matches the offset sign. -/
def reflexRecenter (o : Observation) : Option RobotAction :=
  if recenterThreshold < |o.primary_person_center_offset| ∧ 0 < o.num_persons then
    some (if o.primary_person_center_offset < 0 then RobotAction.ROTATE_LEFT
          else RobotAction.ROTATE_RIGHT)
  else none

/-- Modelled from the spec: the pure reflex safety controller.  A present
obstacle distance below threshold forces STOP; else an off-centre detected
person forces a recentring rotation; else no override. -/
def reflexOverride (o : Observation) : Option RobotAction :=
  match o.obstacle_distance_m with
  | some d => if d < obstacleThreshold then some RobotAction.STOP else reflexRecenter o
  | none => reflexRecenter o

/-- Modelled from the spec: one actuation tick applies the reflex verdict
strictly before dispatching the policy decision, so a reflex override wins. -/
def dispatchTick (o : Observation) (policyDecision : Decision) : RobotAction :=
  match reflexOverride o with
  | some a => a
  | none => policyDecision.action

/-- Modelled from the spec: the short fixed WAIT duration substituted for a
malformed policy decision (seconds). -/
def shortWaitDuration : ℚ := 1

/-- Modelled from the spec: the policy output contract.  ASK requires a
non-empty `say` and a listening timeout; SAY requires a non-empty `say` and
no (or zero) timeout. -/
def decisionWellFormed (d : Decision) : Bool :=
  match d.action with
  | RobotAction.ASK => (d.say != "") && d.wait_for_response_s.isSome
  | RobotAction.SAY => (d.say != "") && (d.wait_for_response_s == none || d.wait_for_response_s == some 0)
  | _ => true

structure ExecEvent where
  kind : String
  detail : String
deriving DecidableEq

/-- Modelled from the spec: the executor's intake of a policy Decision.  A
malformed decision is replaced by a WAIT with the short fixed duration and
a contract-violation event is logged; the executor never throws, so the
error side of the `Except` is never used. -/
def executeDecision (d : Decision) : Except String (Decision × List ExecEvent) :=
  if decisionWellFormed d then
    Except.ok (d, [⟨"dispatch", "ok"⟩])
  else
    Except.ok ({ d with
                 action := RobotAction.WAIT,
                 say := "",
                 wait_for_response_s := some shortWaitDuration },
               [⟨"contract_violation", "malformed policy decision"⟩])

/-- Witness malformed decision: ASK with an empty `say`. -/
def askEmptySay : Decision :=
  { action := RobotAction.ASK, say := "", wait_for_response_s := some 5,
    mode := PolicyMode.ASSESS, confidence := 17 / 20 }

/-- Witness observation with an obstacle at 0.2 m. -/
def obsNearObstacle : Observation :=
  { timestamp := 0, num_persons := 1, primary_person_center_offset := 0,
    confidence := 4 / 5, obstacle_distance_m := some (1 / 5) }

/-- Witness policy decision that wants to drive forward. -/
def decForward : Decision :=
  { action := RobotAction.FORWARD_SLOW, say := "", wait_for_response_s := none,
    mode := PolicyMode.APPROACH, confidence := 9 / 10 }

/-! ## Audio bearing estimation (claim C4)

Modelled from the spec: `himpublic/perception/audio_scanner.py` is not in
the source tree; `README.md` ("Sound-based localization") and spec section
4.2 describe the spin-to-peak algorithm.  Window energy is the mean squared
amplitude (a monotone stand-in for RMS, which would need a square root);
voice activity is the energy-threshold variant, normalized to {0, 1}. -/

structure BearingSample where
  heading_deg : ℚ
  rms_energy : ℚ
  voice_activity_score : ℚ
deriving DecidableEq

/-- Mean squared amplitude of one audio window. -/
def windowEnergy (w : List ℚ) : ℚ := (w.map (fun a => a * a)).sum / w.length

/-- Energy threshold for the voice-activity score. -/
def vadEnergyThreshold : ℚ := 1 / 1000

/-- SignalScorer, energy-threshold variant of the voice-activity score. -/
def windowVad (w : List ℚ) : ℚ := if vadEnergyThreshold < windowEnergy w then 1 else 0

/-- SignalScorer output for one heading's audio window. -/
def mkSample (heading : ℚ) (w : List ℚ) : BearingSample :=
  { heading_deg := heading, rms_energy := windowEnergy w, voice_activity_score := windowVad w }

/-- Composite score: weighted sum of loudness and voice likelihood; the
weights are the spec's tunable policy values. -/
def composite (wE wV : ℚ) (s : BearingSample) : ℚ :=
  wE * s.rms_energy + wV * s.voice_activity_score

/-- Circular read into the per-heading score list. -/
def circGet (l : List ℚ) (i : Nat) : ℚ := l.getD (i % l.length) 0

/-- Three-point circular moving average over adjacent headings. -/
def smoothScores (scores : List ℚ) : List ℚ :=
  (List.range scores.length).map fun i =>
    (circGet scores (i + scores.length - 1) + circGet scores i + circGet scores (i + 1)) / 3

/-- Maximum of a score list (0 for an empty sweep). -/
def listMax : List ℚ → ℚ
  | [] => 0
  | [x] => x
  | x :: y :: ys => max x (listMax (y :: ys))

/-- Index of the first maximum of a score list: ties in the smoothed
composite score resolve to the earliest heading in sweep order. -/
def argmaxQ : List ℚ → Nat
  | [] => 0
  | [_] => 0
  | x :: y :: ys => if listMax (y :: ys) ≤ x then 0 else argmaxQ (y :: ys) + 1

/-- Mean of a score list. -/
def meanQ (l : List ℚ) : ℚ := l.sum / l.length

def clamp01 (q : ℚ) : ℚ := max 0 (min 1 q)

/-- Confidence normalization epsilon. -/
def bearingEpsilon : ℚ := 1 / 1000

structure BearingResult where
  heading_deg : ℚ
  confidence : ℚ
  sensor_degraded : Bool
deriving DecidableEq

/-- BearingEstimator: smooth the composite scores circularly, pick the
first-maximum heading, derive confidence from how far the peak stands above
the mean, and flag a dead microphone (all-zero energy) as sensor-degraded. -/
def estimateBearing (wE wV : ℚ) (sweep : List BearingSample) : BearingResult :=
  let scores := sweep.map (composite wE wV)
  let sm := smoothScores scores
  let i := argmaxQ sm
  let peak := listMax sm
  { heading_deg := (sweep.getD i ⟨0, 0, 0⟩).heading_deg
  , confidence := clamp01 ((peak - meanQ sm) / (peak + bearingEpsilon))
  , sensor_degraded := sweep.all (fun s => s.rms_energy == 0) }

/-- BearingEstimator fed directly from per-heading audio windows. -/
def estimateFromWindows (wE wV : ℚ) (headings : List ℚ) (windows : List (List ℚ)) :
    BearingResult :=
  estimateBearing wE wV ((headings.zip windows).map fun p => mkSample p.1 p.2)

/-! ## RingBuffer and keyframe selection (claims C5, C6, C7)

The ring buffer is modelled from the spec (`README.md` "Keyframe System",
spec section 4.5): time-based eviction on push, oldest-first storage.  The
keyframe selection strategies are embedded from the Python code shown in
`README.md` under "Keyframe Selection (on event)": `np.linspace(0,
len(window)-1, k, dtype=int)` (floating point idealized to exact integer
floor) for "spread", and Python's stable `sorted(..., reverse=True)[:k]`
(embedded as the stable `List.mergeSort`) for "confidence".  A Python
IndexError on an out-of-range index is modelled as `none`. -/

structure RBEntry where
  timestamp : ℚ
  jpeg_bytes : List Nat
  confidence : ℚ
deriving DecidableEq

/-- Push with time-based eviction: append the new entry, then drop every
entry outside the trailing `maxSeconds` window ending at the new entry's
timestamp. -/
def rbPush (maxSeconds : ℚ) (buf : List RBEntry) (e : RBEntry) : List RBEntry :=
  (buf ++ [e]).filter fun x => decide (e.timestamp - maxSeconds < x.timestamp)

/-- A whole sequence of pushes, oldest first. -/
def rbPushAll (maxSeconds : ℚ) (buf : List RBEntry) (es : List RBEntry) : List RBEntry :=
  es.foldl (rbPush maxSeconds) buf

/-- Indices produced by `np.linspace(0, n-1, k, dtype=int)`: truncated even
spacing from 0 to n-1 inclusive. -/
def spreadIndices (n k : Nat) : List Nat :=
  if k = 0 then []
  else if k = 1 then [0]
  else (List.range k).map fun j => (n - 1) * j / (k - 1)

/-- The list comprehension `[window[i] for i in indices]`; a bad index
(Python IndexError) yields `none`. -/
def selectIndices (window : List RBEntry) : List Nat → Option (List RBEntry)
  | [] => some []
  | i :: is =>
    match window.get? i, selectIndices window is with
    | some e, some rest => some (e :: rest)
    | _, _ => none

/-- Strategy "spread": k entries evenly spaced by index across the window. -/
def getKeyframesSpread (window : List RBEntry) (k : Nat) : Option (List RBEntry) :=
  selectIndices window (spreadIndices window.length k)

/-- Descending-confidence comparison used by `sorted(window, key=lambda f:
f.obs.confidence, reverse=True)`; `mergeSort` with this relation is stable
exactly like Python's sort. -/
def confDescLe (a b : RBEntry) : Bool := decide (b.confidence ≤ a.confidence)

/-- Strategy "confidence": the k entries of highest confidence, by stable
descending sort then take. -/
def getKeyframesConfidence (window : List RBEntry) (k : Nat) : List RBEntry :=
  (window.mergeSort confDescLe).take k

/-- Witness window of two distinct entries. -/
def windowTwo : List RBEntry :=
  [ { timestamp := 0, jpeg_bytes := [1], confidence := 1 / 2 },
    { timestamp := 1, jpeg_bytes := [2], confidence := 3 / 5 } ]

/-- Older and newer entries that tie on confidence. -/
def tieOld : RBEntry := { timestamp := 0, jpeg_bytes := [1], confidence := 1 / 2 }

def tieNew : RBEntry := { timestamp := 1, jpeg_bytes := [2], confidence := 1 / 2 }

/-- Witness window with a confidence tie, oldest first. -/
def windowTie : List RBEntry := [tieOld, tieNew]

/-- Witness push sequence prefix: timestamps 0, 1, 2 at 1 s spacing. -/
def pushesInit : List RBEntry :=
  [ { timestamp := 0, jpeg_bytes := [], confidence := 0 },
    { timestamp := 1, jpeg_bytes := [], confidence := 0 },
    { timestamp := 2, jpeg_bytes := [], confidence := 0 } ]

/-- Witness final push at timestamp 3. -/
def pushLast : RBEntry := { timestamp := 3, jpeg_bytes := [], confidence := 0 }

/-- Witness single entry at timestamp 0. -/
def entryZero : RBEntry := { timestamp := 0, jpeg_bytes := [], confidence := 0 }

/-! ## Webapp API client (claims C9, C10)

Embedded from `webapp/src/api/client.ts`.  The platform `JSON.parse` is
modelled by a small fuel-bounded recursive-descent parser over the body's
characters (fuel is generous enough for any input of the body's length);
a promise rejection is the `Except.error` side. -/

inductive Json where
  | null
  | bool (b : Bool)
  | num (lexeme : String)
  | str (s : String)
  | arr (elems : List Json)
  | obj (fields : List (String × Json))

def isWsChar (c : Char) : Bool := c == ' ' || c == '\t' || c == '\n' || c == '\r'

def skipWs : List Char → List Char
  | [] => []
  | c :: cs => if isWsChar c then skipWs cs else c :: cs

def isHexChar (c : Char) : Bool :=
  c.isDigit || ('a' ≤ c && c ≤ 'f') || ('A' ≤ c && c ≤ 'F')

def hexVal (c : Char) : Nat :=
  if c.isDigit then c.toNat - '0'.toNat
  else if 'a' ≤ c && c ≤ 'f' then c.toNat - 'a'.toNat + 10
  else c.toNat - 'A'.toNat + 10

def escOk (c : Char) : Bool :=
  c == '"' || c == '\\' || c == '/' || c == 'b' || c == 'f' || c == 'n' || c == 'r' || c == 't'

def unescape (c : Char) : Char :=
  if c = 'n' then '\n'
  else if c = 't' then '\t'
  else if c = 'r' then '\r'
  else if c = 'b' then Char.ofNat 8
  else if c = 'f' then Char.ofNat 12
  else c

/-- JSON string body after the opening quote: returns the decoded content
and the remainder after the closing quote. -/
def parseStringBody : List Char → Option (List Char × List Char)
  | [] => none
  | '"' :: rest => some ([], rest)
  | '\\' :: 'u' :: a :: b :: c :: d :: rest =>
    if isHexChar a && isHexChar b && isHexChar c && isHexChar d then
      match parseStringBody rest with
      | some (s, r) =>
        some (Char.ofNat (((hexVal a * 16 + hexVal b) * 16 + hexVal c) * 16 + hexVal d) :: s, r)
      | none => none
    else none
  | '\\' :: c :: rest =>
    if escOk c then
      match parseStringBody rest with
      | some (s, r) => some (unescape c :: s, r)
      | none => none
    else none
  | c :: rest =>
    match parseStringBody rest with
    | some (s, r) => some (c :: s, r)
    | none => none

def parseFrac (l : List Char) : Option (List Char × List Char) :=
  match l with
  | '.' :: cs =>
    let p := cs.span Char.isDigit
    if p.1.isEmpty then none else some ('.' :: p.1, p.2)
  | _ => some ([], l)

def parseExpTail (e : Char) (cs : List Char) : Option (List Char × List Char) :=
  let q := match cs with
    | '+' :: r => (['+'], r)
    | '-' :: r => (['-'], r)
    | _ => (([] : List Char), cs)
  let p := q.2.span Char.isDigit
  if p.1.isEmpty then none else some (e :: (q.1 ++ p.1), p.2)

def parseExp (l : List Char) : Option (List Char × List Char) :=
  match l with
  | 'e' :: cs => parseExpTail 'e' cs
  | 'E' :: cs => parseExpTail 'E' cs
  | _ => some ([], l)

/-- JSON number lexeme: optional sign, digits, optional fraction and
exponent. -/
def parseNumber (l : List Char) : Option (List Char × List Char) :=
  let q := match l with
    | '-' :: cs => ((['-'] : List Char), cs)
    | _ => (([] : List Char), l)
  let p := q.2.span Char.isDigit
  if p.1.isEmpty then none
  else
    match parseFrac p.2 with
    | none => none
    | some (f, l3) =>
      match parseExp l3 with
      | none => none
      | some (x, l4) => some (q.1 ++ p.1 ++ f ++ x, l4)

def expectLit : List Char → List Char → Option (List Char)
  | [], l => some l
  | c :: cs, x :: xs => if x = c then expectLit cs xs else none
  | _ :: _, [] => none

/-- Fuel-bounded JSON value parser.  Container tails are parsed by
re-entering the parser on a re-bracketed remainder, keeping the recursion
structural on the fuel. -/
def parseValueF : Nat → List Char → Option (Json × List Char)
  | 0, _ => none
  | fuel + 1, s =>
    match skipWs s with
    | [] => none
    | 'n' :: cs => (expectLit ['u', 'l', 'l'] cs).map fun r => (Json.null, r)
    | 't' :: cs => (expectLit ['r', 'u', 'e'] cs).map fun r => (Json.bool true, r)
    | 'f' :: cs => (expectLit ['a', 'l', 's', 'e'] cs).map fun r => (Json.bool false, r)
    | '"' :: cs => (parseStringBody cs).map fun p => (Json.str (String.mk p.1), p.2)
    | '[' :: cs =>
      (match skipWs cs with
       | ']' :: rest => some (Json.arr [], rest)
       | _ =>
         match parseValueF fuel cs with
         | none => none
         | some (v, rest) =>
           match skipWs rest with
           | ',' :: rest2 =>
             (match parseValueF fuel ('[' :: rest2) with
              | some (Json.arr vs, rest3) => some (Json.arr (v :: vs), rest3)
              | _ => none)
           | ']' :: rest2 => some (Json.arr [v], rest2)
           | _ => none)
    | '{' :: cs =>
      (match skipWs cs with
       | '}' :: rest => some (Json.obj [], rest)
       | '"' :: cs2 =>
         (match parseStringBody cs2 with
          | none => none
          | some (key, rest) =>
            match skipWs rest with
            | ':' :: rest2 =>
              (match parseValueF fuel rest2 with
               | none => none
               | some (v, rest3) =>
                 match skipWs rest3 with
                 | ',' :: rest4 =>
                   (match parseValueF fuel ('{' :: rest4) with
                    | some (Json.obj fs, rest5) => some (Json.obj ((String.mk key, v) :: fs), rest5)
                    | _ => none)
                 | '}' :: rest4 => some (Json.obj [(String.mk key, v)], rest4)
                 | _ => none)
            | _ => none)
       | _ => none)
    | other => (parseNumber other).map fun p => (Json.num (String.mk p.1), p.2)

/-- JSON.parse: the whole input must be one value plus trailing whitespace. -/
def parseJsonChars (l : List Char) : Option Json :=
  match parseValueF (2 * l.length + 16) l with
  | some (v, rest) => if (skipWs rest).isEmpty then some v else none
  | none => none

def parseJson (s : String) : Option Json := parseJsonChars s.toList

/-- One HTTP response as seen by `fetchJson`: the `ok` flag, status code and
text, and the raw body handed to `res.json()`. -/
structure HttpResponse where
  ok : Bool
  status : Nat
  statusText : String
  body : String

/-- The `fetchJson` helper: throw an Error naming the status code when the
response is not ok, else return `res.json()` (which itself rejects on a
body that is not valid JSON). -/
def fetchJson (r : HttpResponse) : Except String Json :=
  if !r.ok then
    Except.error ("API " ++ toString r.status ++ ": " ++ r.statusText)
  else
    match parseJson r.body with
    | some j => Except.ok j
    | none => Except.error "SyntaxError: JSON parse failure"

/-- One chat-completion response as seen by `analyzeInjuriesClient` after
field extraction: `content` is `data.choices[0].message.content`, and
`errorMessage` is `err.error?.message` from a non-ok body (if any). -/
structure ChatCompletionResponse where
  ok : Bool
  status : Nat
  errorMessage : Option String
  content : String

/-- Global removal of every "```json" fence together with the whitespace
that follows it, as `content.replace(/` + "```" + `json\s*[slash]g, ...)`. -/
def stripFenceJson : Nat → List Char → List Char
  | 0, s => s
  | fuel + 1, s =>
    match s with
    | [] => []
    | '`' :: '`' :: '`' :: 'j' :: 's' :: 'o' :: 'n' :: rest =>
      stripFenceJson fuel (rest.dropWhile isWsChar)
    | c :: cs => c :: stripFenceJson fuel cs

/-- Global removal of every remaining "```" fence plus trailing whitespace. -/
def stripFence : Nat → List Char → List Char
  | 0, s => s
  | fuel + 1, s =>
    match s with
    | [] => []
    | '`' :: '`' :: '`' :: rest => stripFence fuel (rest.dropWhile isWsChar)
    | c :: cs => c :: stripFence fuel cs

def trimChars (l : List Char) : List Char :=
  ((l.dropWhile isWsChar).reverse.dropWhile isWsChar).reverse

/-- The fence-stripping and trim applied to the model's message content. -/
def cleanContent (content : String) : String :=
  String.mk (trimChars (stripFence (content.length + 1)
    (stripFenceJson (content.length + 1) content.toList)))

/-- The tail of `analyzeInjuriesClient`: non-ok responses throw the body's
error message (or a status fallback); ok responses have their content
fence-stripped and handed to `JSON.parse`, whose result is returned as the
MedicalAssessment with no validation and whose failure propagates. -/
def analyzeInjuriesClient (r : ChatCompletionResponse) : Except String Json :=
  if !r.ok then
    Except.error (r.errorMessage.getD ("API " ++ toString r.status))
  else
    match parseJson (cleanContent r.content) with
    | some j => Except.ok j
    | none => Except.error "SyntaxError: JSON parse failure"

/-- Witness ok-response whose body is not JSON. -/
def respBadJson : HttpResponse :=
  { ok := true, status := 200, statusText := "OK", body := "not json" }

/-- Witness failed response. -/
def respNotFound : HttpResponse :=
  { ok := false, status := 404, statusText := "Not Found", body := "" }

/-- Witness ok-response with a small JSON body. -/
def respOkList : HttpResponse :=
  { ok := true, status := 200, statusText := "OK", body := "[true]" }

/-- Witness chat completion whose content is not JSON. -/
def chatBad : ChatCompletionResponse :=
  { ok := true, status := 200, errorMessage := none, content := "hello" }

/-- Witness chat completion with a fenced JSON content. -/
def chatFenced : ChatCompletionResponse :=
  { ok := true, status := 200, errorMessage := none, content := "```json[]```" }

/-- Witness sweep whose smoothed composite scores have a unique maximum at
index 0. -/
def sweepW : List BearingSample := [⟨0, 9, 0⟩, ⟨30, 6, 0⟩, ⟨60, 0, 0⟩, ⟨90, 3, 0⟩]

/-- Witness sweep whose smoothed composite scores tie at indices 0 and 1. -/
def sweepTie : List BearingSample := [⟨0, 6, 0⟩, ⟨30, 6, 0⟩, ⟨60, 0, 0⟩, ⟨90, 0, 0⟩]

/-! ## Pipeline engine lemmas -/

theorem runAttempts_log (pd : PhaseDefinition) :
    ∀ (r : Nat) (ctx : MissionContext) (attempt : Nat),
    ∃ app, (runAttempts pd ctx attempt r).1.phase_log = ctx.phase_log ++ app ∧
      app.length ≤ r := by
  intro r
  induction r with
  | zero =>
    intro ctx attempt
    exact ⟨[], by simp [runAttempts], by simp⟩
  | succ n ih =>
    intro ctx attempt
    by_cases hp : pd.precond ctx
    · cases hst : (pd.handler ctx).status with
      | SUCCESS =>
        refine ⟨[⟨pd.name, attempt, PhaseStatus.SUCCESS, (pd.handler ctx).reason⟩], ?_, by simp⟩
        simp [runAttempts, hp, hst, logAttempt, mergeOutputs]
      | ABORT =>
        refine ⟨[⟨pd.name, attempt, PhaseStatus.ABORT, (pd.handler ctx).reason⟩], ?_, by simp⟩
        simp [runAttempts, hp, hst, logAttempt]
      | RETRY =>
        obtain ⟨app, happ, hlen⟩ :=
          ih (logAttempt ctx pd.name attempt PhaseStatus.RETRY (pd.handler ctx).reason)
            (attempt + 1)
        refine ⟨⟨pd.name, attempt, PhaseStatus.RETRY, (pd.handler ctx).reason⟩ :: app, ?_, by
          simpa using hlen⟩
        simp only [runAttempts, hp, if_true, hst]
        simpa [logAttempt] using happ
      | DEGRADED =>
        obtain ⟨app, happ, hlen⟩ :=
          ih (logAttempt ctx pd.name attempt PhaseStatus.DEGRADED (pd.handler ctx).reason)
            (attempt + 1)
        refine ⟨⟨pd.name, attempt, PhaseStatus.DEGRADED, (pd.handler ctx).reason⟩ :: app, ?_, by
          simpa using hlen⟩
        simp only [runAttempts, hp, if_true, hst]
        simpa [logAttempt] using happ
      | SKIPPED =>
        obtain ⟨app, happ, hlen⟩ :=
          ih (logAttempt ctx pd.name attempt PhaseStatus.SKIPPED (pd.handler ctx).reason)
            (attempt + 1)
        refine ⟨⟨pd.name, attempt, PhaseStatus.SKIPPED, (pd.handler ctx).reason⟩ :: app, ?_, by
          simpa using hlen⟩
        simp only [runAttempts, hp, if_true, hst]
        simpa [logAttempt] using happ
    · obtain ⟨app, happ, hlen⟩ :=
        ih (logAttempt ctx pd.name attempt PhaseStatus.RETRY "precondition_failed") (attempt + 1)
      refine ⟨⟨pd.name, attempt, PhaseStatus.RETRY, "precondition_failed"⟩ :: app, ?_, by
        simpa using hlen⟩
      simp only [runAttempts, hp, if_false]
      simpa [logAttempt] using happ

theorem runAttempts_status_cases (pd : PhaseDefinition)
    (hgood : policyDegradesOrAborts pd.policy) :
    ∀ (r : Nat) (ctx : MissionContext) (attempt : Nat),
    (runAttempts pd ctx attempt r).2 = PhaseStatus.SUCCESS ∨
    (runAttempts pd ctx attempt r).2 = PhaseStatus.DEGRADED ∨
    (runAttempts pd ctx attempt r).2 = PhaseStatus.ABORT := by
  intro r
  induction r with
  | zero =>
    intro ctx attempt
    by_cases ha : pd.policy.allow_degraded
    · right; left; simp [runAttempts, ha]
    · rcases hgood with hg | hg
      · exact absurd hg ha
      · right; right; simp [runAttempts, ha, hg]
  | succ n ih =>
    intro ctx attempt
    by_cases hp : pd.precond ctx
    · cases hst : (pd.handler ctx).status with
      | SUCCESS => left; simp [runAttempts, hp, hst]
      | ABORT => right; right; simp [runAttempts, hp, hst]
      | RETRY => simpa only [runAttempts, hp, if_true, hst] using ih _ (attempt + 1)
      | DEGRADED => simpa only [runAttempts, hp, if_true, hst] using ih _ (attempt + 1)
      | SKIPPED => simpa only [runAttempts, hp, if_true, hst] using ih _ (attempt + 1)
    · simpa only [runAttempts, hp, if_false] using ih _ (attempt + 1)

theorem runAttempts_success_last (pd : PhaseDefinition)
    (hgood : policyDegradesOrAborts pd.policy) :
    ∀ (r : Nat) (ctx : MissionContext) (attempt : Nat),
    (runAttempts pd ctx attempt r).2 = PhaseStatus.SUCCESS →
    ∃ e, (runAttempts pd ctx attempt r).1.phase_log.getLast? = some e ∧
      e.status = PhaseStatus.SUCCESS := by
  intro r
  induction r with
  | zero =>
    intro ctx attempt hs
    exfalso
    by_cases ha : pd.policy.allow_degraded
    · simp [runAttempts, ha] at hs
    · rcases hgood with hg | hg
      · exact absurd hg ha
      · simp [runAttempts, ha, hg] at hs
  | succ n ih =>
    intro ctx attempt hs
    by_cases hp : pd.precond ctx
    · cases hst : (pd.handler ctx).status with
      | SUCCESS =>
        refine ⟨⟨pd.name, attempt, PhaseStatus.SUCCESS, (pd.handler ctx).reason⟩, ?_, rfl⟩
        simp [runAttempts, hp, hst, logAttempt, mergeOutputs]
      | ABORT =>
        exfalso; simp [runAttempts, hp, hst] at hs
      | RETRY =>
        simp only [runAttempts, hp, if_true, hst] at hs ⊢
        exact ih _ (attempt + 1) hs
      | DEGRADED =>
        simp only [runAttempts, hp, if_true, hst] at hs ⊢
        exact ih _ (attempt + 1) hs
      | SKIPPED =>
        simp only [runAttempts, hp, if_true, hst] at hs ⊢
        exact ih _ (attempt + 1) hs
    · simp only [runAttempts, hp, if_false] at hs ⊢
      exact ih _ (attempt + 1) hs

/-- C1: for every phase list and every MissionContext, once the engine
resolves a phase to ABORT the run loop stops entirely: the whole run equals
the run of the list truncated right after the aborting phase (so no later
phase's handler is invoked and no further phase's entries are appended to
`phase_log`), and the aborting phase's outcome is the last one recorded. -/
theorem c1_abort_halts :
    ∀ (phases : List PhaseDefinition) (ctx : MissionContext) (i : Nat),
    (runPhases phases ctx).2.get? i = some PhaseStatus.ABORT →
    runPhases phases ctx = runPhases (phases.take (i + 1)) ctx ∧
      (runPhases phases ctx).2.length = i + 1 := by
  intro phases
  induction phases with
  | nil =>
    intro ctx i h
    simp [runPhases] at h
  | cons pd rest ih =>
    intro ctx i h
    by_cases hab : (resolvePhase pd ctx).2 = PhaseStatus.ABORT
    · have hrun : runPhases (pd :: rest) ctx = ((resolvePhase pd ctx).1, [PhaseStatus.ABORT]) := by
        simp [runPhases, hab]
      rw [hrun] at h
      match i, h with
      | 0, _ =>
        constructor
        · rw [hrun]
          simp [runPhases, hab]
        · rw [hrun]
          rfl
      | j + 1, h => simp at h
    · have hrun : runPhases (pd :: rest) ctx =
          ((runPhases rest (resolvePhase pd ctx).1).1,
           (resolvePhase pd ctx).2 :: (runPhases rest (resolvePhase pd ctx).1).2) := by
        simp [runPhases, hab]
      rw [hrun] at h
      match i, h with
      | 0, h =>
        exact absurd (by simpa using h) hab
      | j + 1, h =>
        have h' : (runPhases rest (resolvePhase pd ctx).1).2.get? j = some PhaseStatus.ABORT := by
          simpa using h
        obtain ⟨heq, hlen⟩ := ih (resolvePhase pd ctx).1 j h'
        have htake : runPhases ((pd :: rest).take (j + 1 + 1)) ctx =
            ((runPhases (rest.take (j + 1)) (resolvePhase pd ctx).1).1,
             (resolvePhase pd ctx).2 :: (runPhases (rest.take (j + 1)) (resolvePhase pd ctx).1).2) := by
          simp [runPhases, hab]
        constructor
        · rw [hrun, htake, ← heq]
        · rw [hrun]
          simpa using hlen

/-- C1 witness: a three-phase list whose middle phase aborts runs exactly
like its two-phase truncation and records two outcomes. -/
theorem c1_abort_halts_witness :
    runPhases phasesAbortMid ctxEmpty = runPhases (phasesAbortMid.take 2) ctxEmpty ∧
      (runPhases phasesAbortMid ctxEmpty).2.length = 1 + 1 :=
  c1_abort_halts phasesAbortMid ctxEmpty 1 (by decide)

/-- Budget behaviour of a single phase resolution under a policy that
degrades or aborts on exhaustion. -/
theorem resolve_budget (pd : PhaseDefinition) (ctx : MissionContext)
    (hgood : policyDegradesOrAborts pd.policy) :
    (resolvePhase pd ctx).1.phase_log.length ≤
        ctx.phase_log.length + pd.policy.max_attempts ∧
      ((resolvePhase pd ctx).1.phase_log.length =
          ctx.phase_log.length + pd.policy.max_attempts →
        (∀ e, (resolvePhase pd ctx).1.phase_log.getLast? = some e →
          e.status ≠ PhaseStatus.SUCCESS) →
        (resolvePhase pd ctx).2 ≠ PhaseStatus.SUCCESS ∧
          ((resolvePhase pd ctx).2 = PhaseStatus.DEGRADED ∨
           (resolvePhase pd ctx).2 = PhaseStatus.ABORT)) := by
  obtain ⟨app, happ, hlen⟩ := runAttempts_log pd pd.policy.max_attempts ctx 1
  constructor
  · rw [resolvePhase, happ]
    simpa using hlen
  · intro _ hlast
    have hns : (resolvePhase pd ctx).2 ≠ PhaseStatus.SUCCESS := by
      intro hs
      obtain ⟨e, he, hest⟩ := runAttempts_success_last pd hgood pd.policy.max_attempts ctx 1 hs
      exact hlast e he hest
    refine ⟨hns, ?_⟩
    rcases runAttempts_status_cases pd hgood pd.policy.max_attempts ctx 1 with hc | hc | hc
    · exact absurd hc hns
    · exact Or.inl hc
    · exact Or.inr hc

/-- C2: each pipeline phase carries the documented attempt budget (Deploy 2,
Search-and-hail 5, Approach-confirm 3, Debris 2, Triage 2, Report 3,
Monitor 1); a phase run appends at most `max_attempts` attempt entries to
`phase_log`, and when exactly `max_attempts` entries were appended and the
last recorded attempt was not SUCCESS, the phase outcome is DEGRADED or
ABORT per its policy, never SUCCESS. -/
theorem c2_retry_budget (h1 h2 h3 h4 h5 h6 h7 : MissionContext → PhaseResult) :
    ((pipelinePhases h1 h2 h3 h4 h5 h6 h7).map (fun p => (p.name, p.policy.max_attempts)) =
      [("DEPLOY", 2), ("SEARCH_HAIL", 5), ("APPROACH_CONFIRM", 3), ("DEBRIS_CLEAR", 2),
       ("TRIAGE_DIALOG_SCAN", 2), ("REPORT_SEND", 3), ("MONITOR_WAIT", 1)]) ∧
    ∀ pd, pd ∈ pipelinePhases h1 h2 h3 h4 h5 h6 h7 → ∀ ctx,
      (resolvePhase pd ctx).1.phase_log.length ≤
          ctx.phase_log.length + pd.policy.max_attempts ∧
        ((resolvePhase pd ctx).1.phase_log.length =
            ctx.phase_log.length + pd.policy.max_attempts →
          (∀ e, (resolvePhase pd ctx).1.phase_log.getLast? = some e →
            e.status ≠ PhaseStatus.SUCCESS) →
          (resolvePhase pd ctx).2 ≠ PhaseStatus.SUCCESS ∧
            ((resolvePhase pd ctx).2 = PhaseStatus.DEGRADED ∨
             (resolvePhase pd ctx).2 = PhaseStatus.ABORT)) := by
  constructor
  · rfl
  · intro pd hmem ctx
    apply resolve_budget
    simp only [pipelinePhases, List.mem_cons, List.mem_singleton] at hmem
    rcases hmem with rfl | rfl | rfl | rfl | rfl | rfl | rfl | h
    · exact Or.inl rfl
    · exact Or.inr rfl
    · exact Or.inr rfl
    · exact Or.inl rfl
    · exact Or.inl rfl
    · exact Or.inl rfl
    · exact Or.inl rfl
    · exact absurd h (List.not_mem_nil pd)

/-- C2 witness: the SEARCH_HAIL phase with an always-retrying handler makes
exactly its five budgeted attempts and resolves to ABORT, not SUCCESS. -/
theorem c2_retry_budget_witness :
    (resolvePhase pdSearchW ctxDeployReady).2 ≠ PhaseStatus.SUCCESS ∧
      ((resolvePhase pdSearchW ctxDeployReady).2 = PhaseStatus.DEGRADED ∨
       (resolvePhase pdSearchW ctxDeployReady).2 = PhaseStatus.ABORT) :=
  ((c2_retry_budget retryHandler retryHandler retryHandler retryHandler retryHandler
      retryHandler retryHandler).2 pdSearchW
    (List.Mem.tail _ (List.Mem.head _)) ctxDeployReady).2
    (by decide)
    (fun e he => by
      rw [show (resolvePhase pdSearchW ctxDeployReady).1.phase_log.getLast? =
            some ⟨"SEARCH_HAIL", 5, PhaseStatus.RETRY, "fail"⟩ from rfl] at he
      cases he
      decide)

/-- C3: for every actuation tick, whenever the Observation's obstacle
distance is present and below the 0.5 m safety threshold, the dispatched
action for that tick is STOP regardless of the PolicyLayer's Decision. -/
theorem c3_reflex_precedence (o : Observation) (dec : Decision) (d : ℚ)
    (hd : o.obstacle_distance_m = some d) (hlt : d < obstacleThreshold) :
    dispatchTick o dec = RobotAction.STOP := by
  simp [dispatchTick, reflexOverride, hd, hlt]

/-- C3 witness: an obstacle at 0.2 m forces STOP over a FORWARD_SLOW
policy decision. -/
theorem c3_reflex_precedence_witness :
    dispatchTick obsNearObstacle decForward = RobotAction.STOP :=
  c3_reflex_precedence obsNearObstacle decForward (1 / 5) rfl (by norm_num [obstacleThreshold])

/-- C8: the executor never throws: every Decision, malformed or not, yields
an ok outcome; and every malformed Decision (such as ASK with empty `say`)
is replaced by a WAIT of the short fixed duration together with a logged
contract-violation event. -/
theorem c8_executor_fallback :
    (∀ d : Decision, ∃ out, executeDecision d = Except.ok out) ∧
    ∀ d : Decision, decisionWellFormed d = false →
      ∃ out, executeDecision d = Except.ok out ∧
        out.1.action = RobotAction.WAIT ∧
        out.1.wait_for_response_s = some shortWaitDuration ∧
        ⟨"contract_violation", "malformed policy decision"⟩ ∈ out.2 := by
  constructor
  · intro d
    by_cases h : decisionWellFormed d
    · exact ⟨(d, [⟨"dispatch", "ok"⟩]), by simp [executeDecision, h]⟩
    · refine ⟨({ d with
                 action := RobotAction.WAIT,
                 say := "",
                 wait_for_response_s := some shortWaitDuration },
               [⟨"contract_violation", "malformed policy decision"⟩]), ?_⟩
      simp [executeDecision, h]
  · intro d h
    refine ⟨({ d with
               action := RobotAction.WAIT,
               say := "",
               wait_for_response_s := some shortWaitDuration },
             [⟨"contract_violation", "malformed policy decision"⟩]), ?_, rfl, rfl, ?_⟩
    · simp [executeDecision, h]
    · exact List.mem_singleton.mpr rfl

/-- C8 witness: ASK with empty `say` is malformed and is executed as the
substituted WAIT with a contract-violation event, without throwing. -/
theorem c8_executor_fallback_witness :
    ∃ out, executeDecision askEmptySay = Except.ok out ∧
      out.1.action = RobotAction.WAIT ∧
      out.1.wait_for_response_s = some shortWaitDuration ∧
      ⟨"contract_violation", "malformed policy decision"⟩ ∈ out.2 :=
  c8_executor_fallback.2 askEmptySay (by decide)

/-! ## Bearing estimator lemmas -/

theorem le_listMax : (l : List ℚ) → (k : Nat) → k < l.length → l.getD k 0 ≤ listMax l
  | [], _, h => by simp at h
  | [x], 0, _ => by simp [listMax]
  | [x], k + 1, h => by simp at h
  | x :: y :: ys, 0, _ => by simp [listMax]
  | x :: y :: ys, k + 1, h => by
    have hk : k < (y :: ys).length := by simpa using h
    calc (x :: y :: ys).getD (k + 1) 0 = (y :: ys).getD k 0 := by simp
      _ ≤ listMax (y :: ys) := le_listMax (y :: ys) k hk
      _ ≤ max x (listMax (y :: ys)) := le_max_right _ _

theorem getD_argmaxQ : (l : List ℚ) → l ≠ [] → l.getD (argmaxQ l) 0 = listMax l
  | [], h => absurd rfl h
  | [x], _ => by simp [argmaxQ, listMax]
  | x :: y :: ys, _ => by
    by_cases hc : listMax (y :: ys) ≤ x
    · simp [argmaxQ, hc, listMax, max_eq_left hc]
    · have ih := getD_argmaxQ (y :: ys) (by simp)
      push_neg at hc
      calc (x :: y :: ys).getD (argmaxQ (x :: y :: ys)) 0
          = (x :: y :: ys).getD (argmaxQ (y :: ys) + 1) 0 := by
            rw [show argmaxQ (x :: y :: ys) =
              if listMax (y :: ys) ≤ x then 0 else argmaxQ (y :: ys) + 1 from rfl,
              if_neg (not_le.mpr hc)]
        _ = (y :: ys).getD (argmaxQ (y :: ys)) 0 := List.getD_cons_succ
        _ = listMax (y :: ys) := ih
        _ = listMax (x :: y :: ys) := by
            rw [show listMax (x :: y :: ys) = max x (listMax (y :: ys)) from rfl,
              max_eq_right hc.le]

theorem argmaxQ_lt_length : (l : List ℚ) → l ≠ [] → argmaxQ l < l.length
  | [], h => absurd rfl h
  | [x], _ => by simp [argmaxQ]
  | x :: y :: ys, _ => by
    by_cases hc : listMax (y :: ys) ≤ x
    · simp [argmaxQ, hc]
    · have ih := argmaxQ_lt_length (y :: ys) (by simp)
      rw [List.length_cons] at ih
      simp only [argmaxQ, if_neg hc, List.length_cons]
      omega

theorem getD_lt_of_lt_argmaxQ : (l : List ℚ) → (k : Nat) → k < argmaxQ l →
    l.getD k 0 < listMax l
  | [], k, h => by simp [argmaxQ] at h
  | [x], k, h => by simp [argmaxQ] at h
  | x :: y :: ys, k, h => by
    by_cases hc : listMax (y :: ys) ≤ x
    · rw [argmaxQ] at h
      simp [hc] at h
    · push_neg at hc
      have hq : k < argmaxQ (y :: ys) + 1 := by
        rw [argmaxQ] at h
        simpa [not_le.mpr hc] using h
      match k, hq with
      | 0, _ =>
        simpa [listMax, max_eq_right hc.le] using hc
      | j + 1, hq =>
        have hj : j < argmaxQ (y :: ys) := by omega
        have ih := getD_lt_of_lt_argmaxQ (y :: ys) j hj
        simpa [listMax, max_eq_right hc.le] using ih

theorem argmaxQ_eq_of_max (l : List ℚ) (i : Nat) (hi : i < l.length)
    (hlt : ∀ k, k < i → l.getD k 0 < l.getD i 0)
    (hle : ∀ k, k < l.length → l.getD k 0 ≤ l.getD i 0) :
    argmaxQ l = i := by
  have hne : l ≠ [] := by
    intro h
    rw [h] at hi
    simp at hi
  have ha := argmaxQ_lt_length l hne
  have hb := getD_argmaxQ l hne
  have hmax : listMax l = l.getD i 0 :=
    le_antisymm (hb ▸ hle (argmaxQ l) ha) (le_listMax l i hi)
  rcases lt_trichotomy (argmaxQ l) i with h | h | h
  · exact absurd (hb.symm ▸ hmax ▸ hlt (argmaxQ l) h) (lt_irrefl _)
  · exact h
  · exact absurd (hmax ▸ getD_lt_of_lt_argmaxQ l i h) (lt_irrefl _)

theorem smoothScores_length (scores : List ℚ) :
    (smoothScores scores).length = scores.length := by
  simp [smoothScores]

/-- Shared core: when index i carries the strictly-first maximum of the
smoothed composite scores, the estimator returns its heading. -/
theorem estimateBearing_heading (wE wV : ℚ) (sweep : List BearingSample) (i : Nat)
    (hi : i < sweep.length)
    (hlt : ∀ k, k < i →
      (smoothScores (sweep.map (composite wE wV))).getD k 0 <
        (smoothScores (sweep.map (composite wE wV))).getD i 0)
    (hle : ∀ k, k < sweep.length →
      (smoothScores (sweep.map (composite wE wV))).getD k 0 ≤
        (smoothScores (sweep.map (composite wE wV))).getD i 0) :
    (estimateBearing wE wV sweep).heading_deg = (sweep.getD i ⟨0, 0, 0⟩).heading_deg := by
  have hlen : (smoothScores (sweep.map (composite wE wV))).length = sweep.length := by
    simp [smoothScores_length]
  have harg : argmaxQ (smoothScores (sweep.map (composite wE wV))) = i :=
    argmaxQ_eq_of_max _ i (by omega)
      hlt (fun k hk => hle k (by omega))
  simp only [estimateBearing]
  rw [harg]

theorem getD_zero_of_all_zero (l : List ℚ) (h : ∀ x ∈ l, x = 0) (n : Nat) :
    l.getD n 0 = 0 := by
  rw [List.getD_eq_getElem?_getD]
  cases hg : l[n]? with
  | none => rfl
  | some a =>
    have : a ∈ l := List.getElem?_mem hg
    simp [h a this]

theorem listMax_all_zero : (l : List ℚ) → (∀ x ∈ l, x = 0) → listMax l = 0
  | [], _ => rfl
  | [x], h => h x (by simp)
  | x :: y :: ys, h => by
    have ih := listMax_all_zero (y :: ys) fun a ha => h a (List.mem_cons_of_mem x ha)
    have hx := h x (by simp)
    simp [listMax, hx, ih]

theorem smoothScores_all_zero (scores : List ℚ) (h : ∀ x ∈ scores, x = 0) :
    ∀ x ∈ smoothScores scores, x = 0 := by
  intro x hx
  simp only [smoothScores, List.mem_map] at hx
  obtain ⟨i, _, rfl⟩ := hx
  rw [circGet, circGet, circGet, getD_zero_of_all_zero scores h,
    getD_zero_of_all_zero scores h, getD_zero_of_all_zero scores h]
  norm_num

theorem windowEnergy_all_zero (w : List ℚ) (hw : ∀ a ∈ w, a = 0) : windowEnergy w = 0 := by
  have hsum : (w.map fun a => a * a).sum = 0 := by
    apply List.sum_eq_zero
    intro x hx
    simp only [List.mem_map] at hx
    obtain ⟨a, ha, rfl⟩ := hx
    simp [hw a ha]
  simp [windowEnergy, hsum]

theorem windowVad_all_zero (w : List ℚ) (hw : ∀ a ∈ w, a = 0) : windowVad w = 0 := by
  rw [windowVad, windowEnergy_all_zero w hw]
  norm_num [vadEnergyThreshold]

/-- Shared core: a sweep whose every sample has zero energy and zero voice
activity yields confidence 0 and the sensor-degraded flag. -/
theorem estimateBearing_zero (wE wV : ℚ) (sweep : List BearingSample)
    (h : ∀ s ∈ sweep, s.rms_energy = 0 ∧ s.voice_activity_score = 0) :
    (estimateBearing wE wV sweep).confidence = 0 ∧
      (estimateBearing wE wV sweep).sensor_degraded = true := by
  have hsc : ∀ x ∈ sweep.map (composite wE wV), x = 0 := by
    intro x hx
    simp only [List.mem_map] at hx
    obtain ⟨s, hs, rfl⟩ := hx
    simp [composite, (h s hs).1, (h s hs).2]
  have hsm := smoothScores_all_zero _ hsc
  have hmax := listMax_all_zero _ hsm
  have hsum : (smoothScores (sweep.map (composite wE wV))).sum = 0 :=
    List.sum_eq_zero hsm
  constructor
  · simp [estimateBearing, hmax, meanQ, hsum, clamp01]
  · simp only [estimateBearing, List.all_eq_true]
    intro s hs
    simp [(h s hs).1]

/-- C4: (i) a BearingSweep whose smoothed composite scores have a unique
maximum makes BearingEstimator return exactly that heading; (ii) a sweep of
all-zero-energy windows yields confidence 0 together with the
sensor-degraded signal; (iii) on ties of the smoothed composite score the
earliest (lowest index) heading in sweep order is selected. -/
theorem c4_bearing_estimator :
    (∀ (wE wV : ℚ) (sweep : List BearingSample) (i : Nat),
      i < sweep.length →
      (∀ j, j < sweep.length → j ≠ i →
        (smoothScores (sweep.map (composite wE wV))).getD j 0 <
          (smoothScores (sweep.map (composite wE wV))).getD i 0) →
      (estimateBearing wE wV sweep).heading_deg = (sweep.getD i ⟨0, 0, 0⟩).heading_deg) ∧
    (∀ (wE wV : ℚ) (headings : List ℚ) (windows : List (List ℚ)),
      (∀ w ∈ windows, ∀ a ∈ w, a = 0) →
      (estimateFromWindows wE wV headings windows).confidence = 0 ∧
        (estimateFromWindows wE wV headings windows).sensor_degraded = true) ∧
    (∀ (wE wV : ℚ) (sweep : List BearingSample) (i : Nat),
      i < sweep.length →
      (∀ k, k < i →
        (smoothScores (sweep.map (composite wE wV))).getD k 0 <
          (smoothScores (sweep.map (composite wE wV))).getD i 0) →
      (∀ k, k < sweep.length →
        (smoothScores (sweep.map (composite wE wV))).getD k 0 ≤
          (smoothScores (sweep.map (composite wE wV))).getD i 0) →
      (estimateBearing wE wV sweep).heading_deg = (sweep.getD i ⟨0, 0, 0⟩).heading_deg) := by
  refine ⟨?_, ?_, ?_⟩
  · intro wE wV sweep i hi huniq
    apply estimateBearing_heading wE wV sweep i hi
    · intro k hk
      exact huniq k (by omega) (by omega)
    · intro k hk
      by_cases hki : k = i
      · subst hki; exact le_refl _
      · exact (huniq k hk hki).le
  · intro wE wV headings windows hzero
    apply estimateBearing_zero
    intro s hs
    simp only [List.mem_map] at hs
    obtain ⟨p, hp, rfl⟩ := hs
    have hw : p.2 ∈ windows := (List.of_mem_zip hp).2
    constructor
    · exact windowEnergy_all_zero p.2 (hzero p.2 hw)
    · exact windowVad_all_zero p.2 (hzero p.2 hw)
  · intro wE wV sweep i hi hlt hle
    exact estimateBearing_heading wE wV sweep i hi hlt hle

/-- C4 witness: a concrete unique-maximum sweep returns heading 0, two
all-zero windows give confidence 0 and sensor degraded, and a concrete
tied sweep resolves to the earliest heading. -/
theorem c4_bearing_estimator_witness :
    (estimateBearing 1 1 sweepW).heading_deg = (sweepW.getD 0 ⟨0, 0, 0⟩).heading_deg ∧
    ((estimateFromWindows 1 1 [0, 30] [[0, 0], [0]]).confidence = 0 ∧
      (estimateFromWindows 1 1 [0, 30] [[0, 0], [0]]).sensor_degraded = true) ∧
    (estimateBearing 1 1 sweepTie).heading_deg = (sweepTie.getD 0 ⟨0, 0, 0⟩).heading_deg := by
  have hsmW : smoothScores (List.map (composite 1 1) sweepW) = [6, 5, 3, 4] := by
    norm_num [smoothScores, sweepW, composite, circGet, List.range_succ]
  have hsmT : smoothScores (List.map (composite 1 1) sweepTie) = [4, 4, 2, 2] := by
    norm_num [smoothScores, sweepTie, composite, circGet, List.range_succ]
  refine ⟨?_, ?_, ?_⟩
  · apply c4_bearing_estimator.1 1 1 sweepW 0 (by norm_num [sweepW])
    intro j hj hne
    have hj4 : j < 4 := hj
    interval_cases j
    · exact absurd rfl hne
    · rw [hsmW]; norm_num
    · rw [hsmW]; norm_num
    · rw [hsmW]; norm_num
  · apply c4_bearing_estimator.2.1 1 1 [0, 30] [[0, 0], [0]]
    intro w hw a ha
    simp only [List.mem_cons, List.not_mem_nil, or_false] at hw
    rcases hw with rfl | rfl
    · simpa using ha
    · simpa using ha
  · apply c4_bearing_estimator.2.2 1 1 sweepTie 0 (by norm_num [sweepTie])
      (fun k hk => absurd hk (by omega))
    intro k hk
    have hk4 : k < 4 := hk
    interval_cases k
    · rw [hsmT]
    · rw [hsmT]; norm_num
    · rw [hsmT]; norm_num
    · rw [hsmT]; norm_num

/-! ## RingBuffer lemmas -/

/-- Spacing relation between buffer entries: at least d seconds apart. -/
def spacedBy (d : ℚ) (a b : RBEntry) : Prop := a.timestamp + d ≤ b.timestamp

theorem rbPushAll_sublist (maxSeconds : ℚ) :
    ∀ (es buf pre : List RBEntry), List.Sublist buf pre →
    List.Sublist (rbPushAll maxSeconds buf es) (pre ++ es) := by
  intro es
  induction es with
  | nil =>
    intro buf pre h
    simpa [rbPushAll] using h
  | cons e es ih =>
    intro buf pre h
    have hpush : List.Sublist (rbPush maxSeconds buf e) (pre ++ [e]) :=
      (List.filter_sublist _).trans (h.append (List.Sublist.refl [e]))
    have := ih (rbPush maxSeconds buf e) (pre ++ [e]) hpush
    simpa [rbPushAll, List.append_assoc] using this

theorem spaced_length_le (d hi : ℚ) (_hd : 0 < d) (l : List RBEntry) :
    ∀ lo : ℚ, l ≠ [] → l.Pairwise (spacedBy d) →
    (∀ x ∈ l, lo ≤ x.timestamp) → (∀ x ∈ l, x.timestamp ≤ hi) →
    (l.length : ℚ) * d ≤ hi - lo + d := by
  induction l with
  | nil =>
    intro lo hne _ _ _
    exact absurd rfl hne
  | cons x xs ih =>
    intro lo _ hp hlo hhi
    obtain ⟨hhead, htail⟩ := List.pairwise_cons.mp hp
    cases xs with
    | nil =>
      have h1 := hlo x (by simp)
      have h2 := hhi x (by simp)
      simp only [List.length_cons, List.length_nil]
      push_cast
      linarith
    | cons y ys =>
      have ihy := ih (x.timestamp + d) (by simp) htail
        (fun b hb => hhead b hb)
        (fun b hb => hhi b (List.mem_cons_of_mem x hb))
      have hx := hlo x (by simp)
      calc ((x :: y :: ys).length : ℚ) * d = ((y :: ys).length : ℚ) * d + d := by
            push_cast [List.length_cons]
            ring
        _ ≤ hi - (x.timestamp + d) + d + d := by linarith
        _ ≤ hi - lo + d := by linarith

theorem spaced_length_lt (d hi : ℚ) (hd : 0 < d) (l : List RBEntry) (lo : ℚ)
    (hne : l ≠ []) (hp : l.Pairwise (spacedBy d))
    (hlo : ∀ x ∈ l, lo < x.timestamp) (hhi : ∀ x ∈ l, x.timestamp ≤ hi) :
    (l.length : ℚ) * d < hi - lo + d := by
  cases l with
  | nil => exact absurd rfl hne
  | cons x xs =>
    obtain ⟨hhead, htail⟩ := List.pairwise_cons.mp hp
    have hx := hlo x (by simp)
    cases xs with
    | nil =>
      have h2 := hhi x (by simp)
      simp only [List.length_cons, List.length_nil]
      push_cast
      linarith
    | cons y ys =>
      have ihy := spaced_length_le d hi hd (y :: ys) (x.timestamp + d) (by simp) htail
        (fun b hb => hhead b hb)
        (fun b hb => hhi b (List.mem_cons_of_mem x hb))
      calc ((x :: y :: ys).length : ℚ) * d = ((y :: ys).length : ℚ) * d + d := by
            push_cast [List.length_cons]
            ring
        _ ≤ hi - (x.timestamp + d) + d + d := by linarith
        _ < hi - lo + d := by linarith

/-- C5: (i) after any push, every entry still stored has a timestamp at
least `now - max_seconds` where `now` is the pushing entry's timestamp
(oldest entries are evicted by the time window); (ii) at steady state —
pushes spaced at least `1/fps_sample` apart — the buffer never holds more
than `max_seconds × fps_sample` entries. -/
theorem c5_ring_window :
    (∀ (maxSeconds : ℚ) (buf : List RBEntry) (e x : RBEntry),
      x ∈ rbPush maxSeconds buf e → e.timestamp - maxSeconds ≤ x.timestamp) ∧
    (∀ (maxSeconds fps : ℚ) (N : ℕ) (init : List RBEntry) (e : RBEntry),
      0 < fps → maxSeconds * fps = (N : ℚ) →
      (init ++ [e]).Pairwise (spacedBy (1 / fps)) →
      (rbPushAll maxSeconds [] (init ++ [e])).length ≤ N) := by
  constructor
  · intro maxSeconds buf e x hx
    have := (List.mem_filter.mp hx).2
    have hlt : e.timestamp - maxSeconds < x.timestamp := of_decide_eq_true this
    linarith
  · intro maxSeconds fps N init e hfps hN hp
    have hd : 0 < 1 / fps := by positivity
    have hfold : rbPushAll maxSeconds [] (init ++ [e]) =
        rbPush maxSeconds (rbPushAll maxSeconds [] init) e := by
      simp [rbPushAll, List.foldl_append]
    set B := rbPushAll maxSeconds [] init with hB
    have hsubB : List.Sublist B init := by
      simpa using rbPushAll_sublist maxSeconds init [] []
        (List.Sublist.refl [])
    have hsubR : List.Sublist (rbPush maxSeconds B e) (init ++ [e]) :=
      (List.filter_sublist _).trans (hsubB.append (List.Sublist.refl [e]))
    have hpR : (rbPush maxSeconds B e).Pairwise (spacedBy (1 / fps)) :=
      hp.sublist hsubR
    have hlo : ∀ x ∈ rbPush maxSeconds B e, e.timestamp - maxSeconds < x.timestamp := by
      intro x hx
      exact of_decide_eq_true (List.mem_filter.mp hx).2
    have hcross := (List.pairwise_append.mp hp).2.2
    have hhi : ∀ x ∈ rbPush maxSeconds B e, x.timestamp ≤ e.timestamp := by
      intro x hx
      rcases List.mem_append.mp (List.mem_filter.mp hx).1 with hxB | hxe
      · have hxi : x ∈ init := hsubB.subset hxB
        have := hcross x hxi e (by simp)
        have hd' : 0 < 1 / fps := hd
        simp only [spacedBy] at this
        linarith
      · rw [List.mem_singleton.mp hxe]
    rw [hfold]
    rcases eq_or_ne (rbPush maxSeconds B e) [] with hemp | hne
    · rw [hemp]
      exact Nat.zero_le N
    · have hbound := spaced_length_lt (1 / fps) e.timestamp hd (rbPush maxSeconds B e)
        (e.timestamp - maxSeconds) hne hpR hlo hhi
      have hmaxS : maxSeconds = (N : ℚ) * (1 / fps) := by
        field_simp
        linarith [hN]
      have hlen : ((rbPush maxSeconds B e).length : ℚ) * (1 / fps) <
          ((N : ℚ) + 1) * (1 / fps) := by
        calc ((rbPush maxSeconds B e).length : ℚ) * (1 / fps)
            < e.timestamp - (e.timestamp - maxSeconds) + 1 / fps := hbound
          _ = (N : ℚ) * (1 / fps) + 1 / fps := by rw [← hmaxS]; ring
          _ = ((N : ℚ) + 1) * (1 / fps) := by ring
      have hlt : ((rbPush maxSeconds B e).length : ℚ) < (N : ℚ) + 1 :=
        lt_of_mul_lt_mul_right (by linarith [hlen]) (le_of_lt hd)
      have : (rbPush maxSeconds B e).length < N + 1 := by exact_mod_cast hlt
      omega

/-- C5 witness: pushing 0 s, 1 s, 2 s, 3 s into a 2 s window at 1 fps keeps
the window invariant and at most 2 entries. -/
theorem c5_ring_window_witness :
    (entryZero.timestamp - 10 ≤ entryZero.timestamp) ∧
      (rbPushAll 2 [] (pushesInit ++ [pushLast])).length ≤ 2 := by
  constructor
  · apply c5_ring_window.1 10 [] entryZero entryZero
    show entryZero ∈ ([] ++ [entryZero]).filter
      fun (x : RBEntry) => decide (entryZero.timestamp - 10 < x.timestamp)
    apply List.mem_filter.mpr
    refine ⟨by simp, ?_⟩
    rw [decide_eq_true_eq]
    norm_num [entryZero]
  · apply c5_ring_window.2 2 1 2 pushesInit pushLast (by norm_num) (by norm_num)
    norm_num [pushesInit, pushLast, spacedBy, List.pairwise_cons]

/-! ## Keyframe selection lemmas -/

theorem spreadIndices_length (n k : Nat) : (spreadIndices n k).length = k := by
  unfold spreadIndices
  split_ifs with h0 h1
  · simp [h0]
  · simp [h1]
  · simp

theorem spreadIndices_lt (n k : Nat) (hn : 1 ≤ n) :
    ∀ i ∈ spreadIndices n k, i < n := by
  intro i hi
  unfold spreadIndices at hi
  split_ifs at hi with h0 h1
  · simp at hi
  · rw [List.mem_singleton] at hi
    omega
  · simp only [List.mem_map, List.mem_range] at hi
    obtain ⟨j, hj, rfl⟩ := hi
    have hk1 : 0 < k - 1 := by omega
    have hmono : (n - 1) * j / (k - 1) ≤ (n - 1) * (k - 1) / (k - 1) :=
      Nat.div_le_div_right (Nat.mul_le_mul_left _ (by omega))
    rw [Nat.mul_div_cancel _ hk1] at hmono
    omega

theorem selectIndices_total_of_lt :
    ∀ (idxs : List Nat) (window : List RBEntry),
    (∀ i ∈ idxs, i < window.length) →
    ∃ res, selectIndices window idxs = some res ∧ res.length = idxs.length ∧
      ∀ x ∈ res, x ∈ window := by
  intro idxs
  induction idxs with
  | nil =>
    intro window _
    exact ⟨[], rfl, rfl, by simp⟩
  | cons i is ih =>
    intro window hb
    have hi : i < window.length := hb i (by simp)
    obtain ⟨res, hres, hlen, hmem⟩ := ih window fun j hj => hb j (List.mem_cons_of_mem i hj)
    have hget : window.get? i = some (window.get ⟨i, hi⟩) := List.get?_eq_get hi
    refine ⟨window.get ⟨i, hi⟩ :: res, ?_, by simp [hlen], ?_⟩
    · simp only [selectIndices, hget, hres]
    · intro x hx
      rcases List.mem_cons.mp hx with rfl | hx
      · exact List.get_mem window _ _
      · exact hmem x hx

/-- C6 counterexample: on a two-entry window with k = 3 (k larger than the
window size), the "spread" strategy does not return the whole window: it
returns three entries, duplicating one. -/
theorem c6_spread_counterexample :
    3 > windowTwo.length ∧ getKeyframesSpread windowTwo 3 ≠ some windowTwo := by
  constructor
  · norm_num [windowTwo]
  · intro h
    have hL : (getKeyframesSpread windowTwo 3).map List.length = some 3 := rfl
    rw [h] at hL
    simp [windowTwo] at hL

/-- C6 amended: `get_keyframes(k, "spread")` is deterministic (identical
buffer state and k give identical results) for every k; and for every
nonempty window and every k — including k larger than the window size — it
returns exactly k entries drawn from the window (by truncated even index
spacing), possibly with duplicates, rather than the whole window. -/
theorem c6_spread_amended :
    (∀ (w1 w2 : List RBEntry) (k1 k2 : Nat), w1 = w2 → k1 = k2 →
      getKeyframesSpread w1 k1 = getKeyframesSpread w2 k2) ∧
    (∀ (window : List RBEntry) (k : Nat), window ≠ [] →
      ∃ res, getKeyframesSpread window k = some res ∧ res.length = k ∧
        ∀ x ∈ res, x ∈ window) := by
  constructor
  · intro w1 w2 k1 k2 hw hk
    rw [hw, hk]
  · intro window k hne
    have hn : 1 ≤ window.length := by
      cases window with
      | nil => exact absurd rfl hne
      | cons x xs => simp
    obtain ⟨res, hres, hlen, hmem⟩ := selectIndices_total_of_lt
      (spreadIndices window.length k) window (spreadIndices_lt window.length k hn)
    exact ⟨res, hres, by rw [hlen, spreadIndices_length], hmem⟩

/-- C6 witness: the amended statement at the concrete two-entry window with
k = 2 (determinism) and k = 3 (three in-window entries). -/
theorem c6_spread_amended_witness :
    getKeyframesSpread windowTwo 2 = getKeyframesSpread windowTwo 2 ∧
    ∃ res, getKeyframesSpread windowTwo 3 = some res ∧ res.length = 3 ∧
      ∀ x ∈ res, x ∈ windowTwo :=
  ⟨c6_spread_amended.1 windowTwo windowTwo 2 2 rfl rfl,
   c6_spread_amended.2 windowTwo 3 (by simp [windowTwo])⟩

theorem confDescLe_trans :
    ∀ (a b c : RBEntry), confDescLe a b → confDescLe b c → confDescLe a c := by
  intro a b c hab hbc
  rw [confDescLe, decide_eq_true_eq] at hab hbc ⊢
  exact le_trans hbc hab

theorem confDescLe_total : ∀ (a b : RBEntry), confDescLe a b || confDescLe b a := by
  intro a b
  simp only [confDescLe, Bool.or_eq_true, decide_eq_true_eq]
  exact le_total b.confidence a.confidence

/-- C7 counterexample: two entries tie on confidence, the first (older) one
is distinct from the second (newer) one, and `get_keyframes(1,
"confidence")` returns the older entry, not the more recent one. -/
theorem c7_confidence_counterexample :
    tieOld.confidence = tieNew.confidence ∧ tieOld ≠ tieNew ∧
      getKeyframesConfidence windowTie 1 = [tieOld] := by
  refine ⟨rfl, ?_, ?_⟩
  · intro h
    have := congrArg RBEntry.jpeg_bytes h
    simp [tieOld, tieNew] at this
  · have hpair : windowTie.Pairwise fun a b => confDescLe a b := by
      simp only [windowTie, List.pairwise_cons, List.mem_singleton,
        List.not_mem_nil, List.Pairwise.nil]
      refine ⟨?_, by simp⟩
      intro b hb
      rw [hb, confDescLe, decide_eq_true_eq]
      exact le_of_eq rfl
    have hsort : windowTie.mergeSort confDescLe = windowTie :=
      List.mergeSort_of_sorted hpair
    rw [getKeyframesConfidence, hsort]
    rfl

/-- C7 amended: `get_keyframes(k, "confidence")` returns min(k, window
size) entries forming a highest-confidence selection — the remaining
entries all have confidence at most that of every selected entry — and on
equal confidence the earlier (older) entry of the window keeps its place
before the later one in the stable descending sort, so ties prefer the
older entry, not the more recent one. -/
theorem c7_confidence_amended :
    (∀ (window : List RBEntry) (k : Nat),
      (getKeyframesConfidence window k).length = min k window.length) ∧
    (∀ (window : List RBEntry) (k : Nat),
      ∃ rest, List.Perm (getKeyframesConfidence window k ++ rest) window ∧
        ∀ x ∈ getKeyframesConfidence window k, ∀ y ∈ rest,
          y.confidence ≤ x.confidence) ∧
    (∀ (window : List RBEntry) (a b : RBEntry),
      List.Sublist [a, b] window → b.confidence ≤ a.confidence →
      List.Sublist [a, b] (window.mergeSort confDescLe)) := by
  refine ⟨?_, ?_, ?_⟩
  · intro window k
    rw [getKeyframesConfidence, List.length_take, List.length_mergeSort]
  · intro window k
    refine ⟨(window.mergeSort confDescLe).drop k, ?_, ?_⟩
    · rw [getKeyframesConfidence, List.take_append_drop]
      exact List.mergeSort_perm window confDescLe
    · intro x hx y hy
      have hs : (window.mergeSort confDescLe).Pairwise fun a b => confDescLe a b :=
        List.sorted_mergeSort confDescLe_trans confDescLe_total window
      have hsplit : ((window.mergeSort confDescLe).take k ++
          (window.mergeSort confDescLe).drop k).Pairwise fun a b => confDescLe a b := by
        rw [List.take_append_drop]
        exact hs
      have hcross := (List.pairwise_append.mp hsplit).2.2
      have := hcross x hx y hy
      rwa [confDescLe, decide_eq_true_eq] at this
  · intro window a b hsub hle
    exact List.pair_sublist_mergeSort confDescLe_trans confDescLe_total
      (by rw [confDescLe, decide_eq_true_eq]; exact hle) hsub

/-- C7 witness: the amended statement at the concrete tied window with
k = 1 and the tied pair. -/
theorem c7_confidence_amended_witness :
    (getKeyframesConfidence windowTie 1).length = min 1 windowTie.length ∧
    (∃ rest, List.Perm (getKeyframesConfidence windowTie 1 ++ rest) windowTie ∧
      ∀ x ∈ getKeyframesConfidence windowTie 1, ∀ y ∈ rest,
        y.confidence ≤ x.confidence) ∧
    List.Sublist [tieOld, tieNew] (windowTie.mergeSort confDescLe) :=
  ⟨c7_confidence_amended.1 windowTie 1,
   c7_confidence_amended.2.1 windowTie 1,
   c7_confidence_amended.2.2 windowTie tieOld tieNew (List.Sublist.refl _) (le_of_eq rfl)⟩

/-! ## Webapp API client theorems -/

/-- C9 counterexample: a response with `ok = true` whose body is not valid
JSON makes `fetchJson` reject (a `res.json()` parse error) instead of
returning the parsed body, so "returns the parsed JSON body exactly when ok
is true" fails at this input. -/
theorem c9_fetchjson_counterexample :
    respBadJson.ok = true ∧ ∀ j, fetchJson respBadJson ≠ Except.ok j := by
  refine ⟨rfl, ?_⟩
  intro j h
  rw [show fetchJson respBadJson = Except.error "SyntaxError: JSON parse failure" from rfl] at h
  exact Except.noConfusion h

/-- C9 amended: `fetchJson` throws the Error embedding the numeric status
code exactly when `ok` is false; when `ok` is true it returns the parsed
JSON body provided the body parses (propagating the parse rejection
otherwise); it never returns a value for a failed response. -/
theorem c9_fetchjson_amended :
    (∀ r : HttpResponse, r.ok = false →
      fetchJson r = Except.error ("API " ++ toString r.status ++ ": " ++ r.statusText)) ∧
    (∀ (r : HttpResponse) (j : Json),
      fetchJson r = Except.ok j ↔ (r.ok = true ∧ parseJson r.body = some j)) := by
  constructor
  · intro r h
    simp [fetchJson, h]
  · intro r j
    constructor
    · intro h
      by_cases hok : r.ok
      · refine ⟨hok, ?_⟩
        cases hp : parseJson r.body with
        | none => simp [fetchJson, hok, hp] at h
        | some j' =>
          simp [fetchJson, hok, hp] at h
          exact congrArg some h
      · simp only [Bool.not_eq_true] at hok
        simp [fetchJson, hok] at h
    · rintro ⟨hok, hp⟩
      simp [fetchJson, hok, hp]

/-- C9 witness: the amended statement at a concrete 404 response and at a
concrete ok response with body "[true]". -/
theorem c9_fetchjson_amended_witness :
    fetchJson respNotFound =
      Except.error ("API " ++ toString respNotFound.status ++ ": " ++ respNotFound.statusText) ∧
    fetchJson respOkList = Except.ok (Json.arr [Json.bool true]) :=
  ⟨c9_fetchjson_amended.1 respNotFound rfl,
   (c9_fetchjson_amended.2 respOkList (Json.arr [Json.bool true])).mpr ⟨rfl, rfl⟩⟩

/-- C10: there exists a chat-completion response for which
`analyzeInjuriesClient` throws rather than substituting a safe default —
after fence stripping, content that is not valid JSON makes the JSON.parse
rejection propagate — and for every ok response the function returns a
MedicalAssessment exactly when parsing the cleaned content succeeds. -/
theorem c10_analyze_throws :
    (∃ r : ChatCompletionResponse, r.ok = true ∧
      ∀ v, analyzeInjuriesClient r ≠ Except.ok v) ∧
    (∀ (r : ChatCompletionResponse) (v : Json), r.ok = true →
      (analyzeInjuriesClient r = Except.ok v ↔
        parseJson (cleanContent r.content) = some v)) := by
  constructor
  · refine ⟨chatBad, rfl, ?_⟩
    intro v h
    rw [show analyzeInjuriesClient chatBad =
      Except.error "SyntaxError: JSON parse failure" from rfl] at h
    exact Except.noConfusion h
  · intro r v hok
    constructor
    · intro h
      cases hp : parseJson (cleanContent r.content) with
      | none => simp [analyzeInjuriesClient, hok, hp] at h
      | some v' =>
        simp [analyzeInjuriesClient, hok, hp] at h
        exact congrArg some h
    · intro hp
      simp [analyzeInjuriesClient, hok, hp]

/-- C10 witness: fenced content "```json[]```" cleans to "[]" and parses,
so the concrete call returns the parsed empty-object assessment. -/
theorem c10_analyze_throws_witness :
    analyzeInjuriesClient chatFenced = Except.ok (Json.arr []) :=
  (c10_analyze_throws.2 chatFenced (Json.arr []) rfl).mpr rfl

end SAR
